import Mathlib

set_option maxHeartbeats 1000000

/-!
Shallow embedding of `ceph_iscsi_config/utils.py` (address normalization,
address resolution, reachability probing, and list diffing), together with
proofs of the specification claims about it.

Network effects are modelled by oracles passed explicitly: `reach addr fam`
tells whether a `sock.connect` to `addr` over the given address family
succeeds within the timeout, and `dns addr fam` gives the
`socket.getaddrinfo` answer for `addr` (`none` models a raised resolution
error). `socket.inet_pton` is modelled after glibc `inet_pton` for
`AF_INET` / `AF_INET6` (resolv/inet_pton.c), which is what CPython calls on
Linux; any exception it raises is modelled as the parse simply failing,
since every caller in the source wraps it in `try/except: pass`.
-/

/-- Numeric value of a hexadecimal digit, as glibc `hex_digit_value`. -/
def hexDigitValue (c : Char) : Option Nat :=
  if '0' ≤ c ∧ c ≤ '9' then some (c.toNat - '0'.toNat)
  else if 'a' ≤ c ∧ c ≤ 'f' then some (c.toNat - 'a'.toNat + 10)
  else if 'A' ≤ c ∧ c ≤ 'F' then some (c.toNat - 'A'.toNat + 10)
  else none

/-- Main loop of glibc `inet_pton4`: `src` is the unread input, `saw` the
`saw_digit` flag, `oct` the number of octets started, `cur` the value of the
octet currently being read. -/
def pton4Loop : List Char → Bool → Nat → Nat → Bool
  | [], _, oct, _ => decide (4 ≤ oct)
  | c :: rest, saw, oct, cur =>
    if c.isDigit then
      if saw ∧ cur = 0 then false
      else if 255 < cur * 10 + (c.toNat - '0'.toNat) then false
      else if saw then pton4Loop rest true oct (cur * 10 + (c.toNat - '0'.toNat))
      else if 4 ≤ oct then false
      else pton4Loop rest true (oct + 1) (cur * 10 + (c.toNat - '0'.toNat))
    else if c = '.' ∧ saw then
      if oct = 4 then false
      else pton4Loop rest false oct 0
    else false

/-- Validity part of `socket.inet_pton(AF_INET, ·)`: a strict dotted quad of
exactly four decimal octets, each at most 255 and without leading zeros. -/
def inet_pton4 (s : List Char) : Bool := pton4Loop s false 0 0

/-- Closing checks of glibc `inet_pton6`, run when the input is exhausted or
after an embedded IPv4 part: flush a pending hex group (`xds` digits seen,
value already folded into the byte count by the caller), then require
exactly 16 bytes, except that a `::` must have expanded to at least one
group, so with `::` present the explicit groups must cover fewer than 16. -/
def pton6End (xds bytes : Nat) (hasColon : Bool) : Bool :=
  if 0 < xds then
    if 16 < bytes + 2 then false
    else if hasColon then decide (bytes + 2 ≠ 16) else decide (bytes + 2 = 16)
  else if hasColon then decide (bytes ≠ 16) else decide (bytes = 16)

/-- Main loop of glibc `inet_pton6`: `src` is the unread input, `curtok` the
suffix starting at the current hex group (used for an embedded IPv4 part),
`xds` the digits seen in the current group, `val` its value, `bytes` the
bytes written so far, `hasColon` whether a `::` was seen. -/
def pton6Loop : List Char → List Char → Nat → Nat → Nat → Bool → Bool
  | [], _, xds, _, bytes, hasColon => pton6End xds bytes hasColon
  | c :: rest, curtok, xds, val, bytes, hasColon =>
    match hexDigitValue c with
    | some d =>
      if xds = 4 then false
      else if 65535 < val * 16 + d then false
      else pton6Loop rest curtok (xds + 1) (val * 16 + d) bytes hasColon
    | none =>
      if c = ':' then
        if xds = 0 then
          if hasColon then false
          else pton6Loop rest rest 0 val bytes true
        else if rest = [] then false
        else if 16 < bytes + 2 then false
        else pton6Loop rest rest 0 0 (bytes + 2) hasColon
      else if c = '.' ∧ bytes + 4 ≤ 16 ∧ inet_pton4 curtok then
        pton6End 0 (bytes + 4) hasColon
      else false

/-- Validity part of `socket.inet_pton(AF_INET6, ·)`, modelled on glibc
`inet_pton6`: hex groups separated by `:`, at most one `::` (expanding to at
least one group), an optional embedded dotted quad in the last 32 bits. -/
def inet_pton6 (s : List Char) : Bool :=
  match s with
  | [] => false
  | c :: rest =>
    if c = ':' then
      if rest.head? = some ':' then pton6Loop rest rest 0 0 0 false else false
    else pton6Loop (c :: rest) (c :: rest) 0 0 0 false

/-- Character class that can occur in a string accepted by `inet_pton`
for either family: a (hex) digit, `:`, or `.`. -/
def ipv6Char (c : Char) : Prop :=
  c.isDigit = true ∨ (hexDigitValue c).isSome = true ∨ c = ':' ∨ c = '.'

/-- Drop one trailing newline, as the anchor `$` of the bracket pattern in
`normalize_ip_address` also matches just before a final newline. -/
def dropTrailingNl (cs : List Char) : List Char :=
  if cs.getLast? = some '\n' then cs.dropLast else cs

/-- Group 1 of a Python `re.match` of the bracket pattern of
`normalize_ip_address` (anchored `[`, then `(.*)`, then `]`, then end)
against the character list: the input must be `[`, an interior free of
newlines (`.` does not match a newline), `]`, optionally followed by one
final newline (which `$` tolerates). `none` models "no match". -/
def pyBracketGroup (s : List Char) : Option (List Char) :=
  match s with
  | [] => none
  | c :: rest =>
    if c = '[' then
      match (dropTrailingNl rest).reverse with
      | [] => none
      | c2 :: revT =>
        if c2 = ']' then if '\n' ∈ revT then none else some revT.reverse
        else none
    else none

/-- Embedding of `normalize_ip_address`: strip the square brackets of an
IPv6 literal (RFC 3986) if the bracket regex matches, else return the input
unchanged. -/
def normalize_ip_address (ip_address : String) : String :=
  match pyBracketGroup ip_address.data with
  | some t => String.mk t
  | none => ip_address

/-- Embedding of `normalize_ip_literal`: normalize to bare form, then wrap
in brackets exactly when `socket.inet_pton(AF_INET6, ·)` accepts the bare
form (a raised exception is passed over). -/
def normalize_ip_literal (ip_address : String) : String :=
  let bare := normalize_ip_address ip_address
  if inet_pton6 bare.data then "[" ++ bare ++ "]" else bare

/-- Address family constants `AF_INET` / `AF_INET6`. -/
inductive IpFamily
  | v4
  | v6
  deriving DecidableEq

/-- Fold of `addrs.add(info[4][0])` over one `getaddrinfo` answer: the
Python set is modelled as a duplicate-free list in insertion order. -/
def addResolved (acc : List String) (infos : List String) : List String :=
  infos.foldl (fun a s => if s ∈ a then a else a ++ [s]) acc

/-- Embedding of `resolve_ip_addresses`. `dns addr fam` is the
`socket.getaddrinfo(addr, 0, fam)` oracle, already projected to the address
strings `info[4][0]`; `none` models a raised resolution error, which the
source swallows with `except: pass`. Note the source probes the literal
parse on the normalized address but resolves the original `addr`. -/
def resolve_ip_addresses (dns : String → IpFamily → Option (List String))
    (addr : String) : List String :=
  let normalized_addr := normalize_ip_address addr
  if inet_pton4 normalized_addr.data then [normalized_addr]
  else if inet_pton6 normalized_addr.data then [normalized_addr]
  else
    let acc4 : List String :=
      match dns addr IpFamily.v4 with
      | some infos => addResolved [] infos
      | none => []
    match dns addr IpFamily.v6 with
    | some infos => addResolved acc4 infos
    | none => acc4

/-- Record of one attempted `sock.connect`. -/
structure Probe where
  addr : String
  fam : IpFamily
  deriving DecidableEq

/-- Inner family loop of `valid_ip` for one address: try `AF_INET`, then
`AF_INET6`, breaking at the first family whose connect succeeds. Returns
the `addr_ok` flag together with the probes attempted, in order. -/
def connectAddr (reach : String → IpFamily → Bool) (addr : String) :
    Bool × List Probe :=
  if reach addr IpFamily.v4 then (true, [⟨addr, IpFamily.v4⟩])
  else if reach addr IpFamily.v6 then
    (true, [⟨addr, IpFamily.v4⟩, ⟨addr, IpFamily.v6⟩])
  else (false, [⟨addr, IpFamily.v4⟩, ⟨addr, IpFamily.v6⟩])

/-- Outer loop of `valid_ip`: probe each address in turn and break with
`ip_ok = False` at the first address reachable over neither family. -/
def validIpLoop (reach : String → IpFamily → Bool) : List String → Bool × List Probe
  | [] => (true, [])
  | addr :: rest =>
    let r := connectAddr reach addr
    if r.1 then
      let rr := validIpLoop reach rest
      (rr.1, r.2 ++ rr.2)
    else (false, r.2)

/-- Python value passed to `valid_ip`: a string, a list of strings, or any
value of another type. -/
inductive PyValue
  | str (s : String)
  | list (l : List String)
  | other

/-- Embedding of `valid_ip`: wrap a single string into a one-element list,
return `False` outright for any non-string non-list value, then run the
probe loop. The result also carries the trace of attempted connects. -/
def valid_ip (reach : String → IpFamily → Bool) (ip : PyValue) :
    Bool × List Probe :=
  match ip with
  | PyValue.str s => validIpLoop reach [s]
  | PyValue.list l => validIpLoop reach l
  | PyValue.other => (false, [])

/-- Embedding of the `ListComparison` object state. -/
structure ListComparison (α : Type) where
  current : List α
  new : List α
  changed : Bool

/-- Constructor `ListComparison(current_list, new_list)`. -/
def ListComparison.init {α : Type} (current_list new_list : List α) :
    ListComparison α :=
  ⟨current_list, new_list, false⟩

/-- Python `set(l)`, modelled as a duplicate-free list. -/
def pySet {α : Type} [DecidableEq α] (l : List α) : List α := l.dedup

/-- Python set difference `a - b` on the duplicate-free-list model. -/
def pySetDiff {α : Type} [DecidableEq α] (a b : List α) : List α :=
  a.filter (fun x => decide (x ∉ b))

/-- Property `added`: compute the set difference `set(new) - set(current)`,
set `changed` when it is non-empty, and return `new` filtered to the
members of the difference, re-establishing `new`'s order. Returns the
produced list together with the successor object state. -/
def ListComparison.addedRun {α : Type} [DecidableEq α] (s : ListComparison α) :
    List α × ListComparison α :=
  let additions := pySetDiff (pySet s.new) (pySet s.current)
  let s' := if 0 < additions.length then { s with changed := true } else s
  (s.new.filter (fun x => decide (x ∈ additions)), s')

/-- Property `removed`: compute the set difference `set(current) - set(new)`,
set `changed` when it is non-empty, and return it as a list. -/
def ListComparison.removedRun {α : Type} [DecidableEq α] (s : ListComparison α) :
    List α × ListComparison α :=
  let removals := pySetDiff (pySet s.current) (pySet s.new)
  let s' := if 0 < removals.length then { s with changed := true } else s
  (removals, s')

/-- One property read on a `ListComparison` object. -/
inductive DiffOp
  | addedOp
  | removedOp

/-- Read one property, keeping only the successor state. -/
def applyOp {α : Type} [DecidableEq α] (s : ListComparison α) :
    DiffOp → ListComparison α
  | DiffOp.addedOp => (s.addedRun).2
  | DiffOp.removedOp => (s.removedRun).2

/-- Perform a sequence of property reads. -/
def applyOps {α : Type} [DecidableEq α] (s : ListComparison α)
    (ops : List DiffOp) : ListComparison α :=
  ops.foldl applyOp s

/-- Modelled from the spec's words for claim C9: the naive reading of "the
input matches the bracketed form", namely first character `[`, last
character `]`, length at least two. Stated separately so it can be compared
with the regex the source actually applies. -/
def specBracketedForm (s : String) : Bool :=
  decide (2 ≤ s.data.length) && (s.data.head? == some '[') &&
    (s.data.getLast? == some ']')

example : inet_pton6 "::1".data = true := by decide
example : inet_pton6 "::".data = true := by decide
example : inet_pton6 "1:2:3:4:5:6:7:8".data = true := by decide
example : inet_pton6 "1:2:3:4:5:6:7:8:9".data = false := by decide
example : inet_pton6 ":::".data = false := by decide
example : inet_pton6 "::ffff:1.2.3.4".data = true := by decide
example : inet_pton6 "1.2.3.4".data = false := by decide
example : inet_pton6 "12345::".data = false := by decide
example : inet_pton6 "::00001".data = false := by decide
example : inet_pton6 "1::2::3".data = false := by decide
example : inet_pton6 "".data = false := by decide
example : inet_pton6 ":".data = false := by decide
example : inet_pton6 "1:".data = false := by decide
example : inet_pton6 "1::".data = true := by decide
example : inet_pton6 "::1:2:3:4:5:6:7:8".data = false := by decide
example : inet_pton6 "fe80::1%eth0".data = false := by decide
example : inet_pton4 "127.0.0.1".data = true := by decide
example : inet_pton4 "127.0.0.01".data = false := by decide
example : inet_pton4 "256.0.0.1".data = false := by decide
example : inet_pton4 "1.2.3".data = false := by decide
example : inet_pton4 "1.2.3.4.5".data = false := by decide
example : inet_pton4 "0.0.0.0".data = true := by decide
example : normalize_ip_address "[::1]" = "::1" := by decide
example : normalize_ip_address "::1" = "::1" := by decide
example : normalize_ip_address "[[]]" = "[]" := by decide
example : normalize_ip_address "[]" = "" := by decide
example : normalize_ip_literal "::1" = "[::1]" := by decide
example : normalize_ip_literal "[::1]" = "[::1]" := by decide
example : normalize_ip_literal "127.0.0.1" = "127.0.0.1" := by decide
example : normalize_ip_literal (normalize_ip_literal "[[]]") = "" := by decide
example : normalize_ip_literal "[[]]" = "[]" := by decide

/-! ### Lemmas about the diff model -/

theorem mem_pySetDiff {α : Type} [DecidableEq α] (x : α) (a b : List α) :
    x ∈ pySetDiff (pySet a) (pySet b) ↔ x ∈ a ∧ x ∉ b := by
  simp [pySetDiff, pySet, List.mem_filter, List.mem_dedup]

theorem addedRun_fst {α : Type} [DecidableEq α] (s : ListComparison α) :
    (s.addedRun).1 = s.new.filter (fun x => decide (x ∈ s.new ∧ x ∉ s.current)) := by
  have h : (s.addedRun).1 =
      s.new.filter (fun x => decide (x ∈ pySetDiff (pySet s.new) (pySet s.current))) := rfl
  rw [h]
  exact List.filter_congr fun x _ => decide_eq_decide.mpr (mem_pySetDiff x s.new s.current)

theorem removedRun_fst {α : Type} [DecidableEq α] (s : ListComparison α) :
    (s.removedRun).1 = pySetDiff (pySet s.current) (pySet s.new) := rfl

theorem addedRun_fst_nil_iff {α : Type} [DecidableEq α] (s : ListComparison α) :
    (s.addedRun).1 = [] ↔ pySetDiff (pySet s.new) (pySet s.current) = [] := by
  constructor
  · intro h
    by_contra hne
    obtain ⟨x, hx⟩ := List.exists_mem_of_ne_nil _ hne
    have hx' := (mem_pySetDiff x s.new s.current).mp hx
    have hmem : x ∈ (s.addedRun).1 := by
      rw [addedRun_fst]
      exact List.mem_filter.mpr ⟨hx'.1, by simp [hx'.1, hx'.2]⟩
    rw [h] at hmem
    exact absurd hmem (List.not_mem_nil x)
  · intro h
    have h0 : (s.addedRun).1 =
        s.new.filter (fun x => decide (x ∈ pySetDiff (pySet s.new) (pySet s.current))) := rfl
    rw [h0, List.filter_eq_nil_iff]
    intro x _
    simp [h]

theorem addedRun_snd_changed {α : Type} [DecidableEq α] (s : ListComparison α) :
    ((s.addedRun).2).changed = (s.changed || !(s.addedRun).1.isEmpty) := by
  by_cases h : pySetDiff (pySet s.new) (pySet s.current) = []
  · have h1 : (s.addedRun).1 = [] := (addedRun_fst_nil_iff s).mpr h
    have h2 : (s.addedRun).2 = s := by
      simp only [ListComparison.addedRun, h]
      rfl
    rw [h1, h2]
    simp
  · have hl : 0 < (pySetDiff (pySet s.new) (pySet s.current)).length :=
      List.length_pos.mpr h
    have h2 : ((s.addedRun).2).changed = true := by
      simp only [ListComparison.addedRun]
      rw [if_pos hl]
    have h1 : (s.addedRun).1 ≠ [] := fun hc => h ((addedRun_fst_nil_iff s).mp hc)
    rw [h2, eq_comm]
    simp [List.isEmpty_iff, h1]

theorem removedRun_snd_changed {α : Type} [DecidableEq α] (s : ListComparison α) :
    ((s.removedRun).2).changed = (s.changed || !(s.removedRun).1.isEmpty) := by
  by_cases h : pySetDiff (pySet s.current) (pySet s.new) = []
  · have h2 : (s.removedRun).2 = s := by
      simp only [ListComparison.removedRun, h]
      rfl
    rw [h2, removedRun_fst, h]
    simp
  · have hl : 0 < (pySetDiff (pySet s.current) (pySet s.new)).length :=
      List.length_pos.mpr h
    have h2 : ((s.removedRun).2).changed = true := by
      simp only [ListComparison.removedRun]
      rw [if_pos hl]
    rw [h2, removedRun_fst, eq_comm]
    simp [List.isEmpty_iff, h]

theorem applyOp_of_empty {α : Type} [DecidableEq α] (s : ListComparison α)
    (ha : pySetDiff (pySet s.new) (pySet s.current) = [])
    (hr : pySetDiff (pySet s.current) (pySet s.new) = []) (op : DiffOp) :
    applyOp s op = s := by
  cases op
  · show (s.addedRun).2 = s
    simp only [ListComparison.addedRun, ha]
    rfl
  · show (s.removedRun).2 = s
    simp only [ListComparison.removedRun, hr]
    rfl

theorem applyOps_of_empty {α : Type} [DecidableEq α] (s : ListComparison α)
    (ha : pySetDiff (pySet s.new) (pySet s.current) = [])
    (hr : pySetDiff (pySet s.current) (pySet s.new) = []) (ops : List DiffOp) :
    applyOps s ops = s := by
  induction ops with
  | nil => rfl
  | cons op ops ih =>
    show applyOps (applyOp s op) ops = s
    rw [applyOp_of_empty s ha hr op, ih]

theorem applyOp_changed_mono {α : Type} [DecidableEq α] (s : ListComparison α)
    (op : DiffOp) (h : s.changed = true) : (applyOp s op).changed = true := by
  cases op
  · show ((s.addedRun).2).changed = true
    rw [addedRun_snd_changed, h]
    simp
  · show ((s.removedRun).2).changed = true
    rw [removedRun_snd_changed, h]
    simp

theorem applyOps_changed_mono {α : Type} [DecidableEq α] (ops : List DiffOp) :
    ∀ s : ListComparison α, s.changed = true → (applyOps s ops).changed = true := by
  induction ops with
  | nil => exact fun s h => h
  | cons op ops ih =>
    intro s h
    exact ih (applyOp s op) (applyOp_changed_mono s op h)

/-! ### Claims C1, C3, C5 -/

/-- C1: for every pair of lists `current` and `new`, the `added` property
returns exactly `new` filtered to the members of the set difference
`new - current`, hence in `new`'s original order rather than in an
arbitrary set-iteration order. -/
theorem claim_C1_added_preserves_new_order {α : Type} [DecidableEq α]
    (current new : List α) :
    ((ListComparison.init current new).addedRun).1 =
      new.filter (fun x => decide (x ∈ new ∧ x ∉ current)) :=
  addedRun_fst (ListComparison.init current new)

/-- C3 counterexample: with `current = []` and `new = [3, 3]`, the `added`
property returns `[3, 3]`, a list that contains the element `3` twice, so
the lists returned by `added` do not always contain each element at most
once. -/
theorem claim_C3_counterexample :
    ((ListComparison.init ([] : List Nat) [3, 3]).addedRun).1 = [3, 3] ∧
      ¬ ((ListComparison.init ([] : List Nat) [3, 3]).addedRun).1.Nodup :=
  ⟨by decide, by decide⟩

/-- C3 amended: duplicates within either input are collapsed when the
difference sets are computed — membership in the results ignores input
multiplicity — and `removed` contains each element at most once; `added`,
however, repeats an added element once per occurrence in `new` (it lists an
element `new.count x` times when the element is added, so the spec's
duplicate example holds only because its duplicated elements are not in the
difference set). -/
theorem claim_C3_amended_set_semantics {α : Type} [DecidableEq α]
    (current new : List α) :
    ((ListComparison.init current new).removedRun).1.Nodup
    ∧ (∀ x, x ∈ ((ListComparison.init current new).addedRun).1 ↔
        x ∈ new ∧ x ∉ current)
    ∧ (∀ x, x ∈ ((ListComparison.init current new).removedRun).1 ↔
        x ∈ current ∧ x ∉ new)
    ∧ (∀ x, ((ListComparison.init current new).addedRun).1.count x =
        if x ∈ current then 0 else new.count x) := by
  refine ⟨?_, ?_, ?_, ?_⟩
  · rw [removedRun_fst]
    exact (List.nodup_dedup current).filter _
  · intro x
    rw [addedRun_fst]
    constructor
    · intro h
      have := List.mem_filter.mp h
      simpa using this.2
    · intro h
      exact List.mem_filter.mpr ⟨h.1, by simp only [decide_eq_true_eq]; exact ⟨h.1, h.2⟩⟩
  · intro x
    rw [removedRun_fst]
    exact mem_pySetDiff x current new
  · intro x
    rw [addedRun_fst]
    by_cases hc : x ∈ current
    · rw [if_pos hc]
      rw [List.count_eq_zero]
      intro hmem
      have := (List.mem_filter.mp hmem).2
      simp at this
      exact absurd hc this.2
    · rw [if_neg hc]
      by_cases hn : x ∈ new
      · exact List.count_filter (by simp only [decide_eq_true_eq]; exact ⟨hn, hc⟩)
      · rw [List.count_eq_zero.mpr hn, List.count_eq_zero]
        intro hmem
        exact absurd (List.mem_filter.mp hmem).1 hn

/-- C5: the `changed` flag of a `ListComparison` starts false, each property
read updates it to the disjunction of its old value and the non-emptiness
of the list just computed (so it becomes true the first time a non-empty
difference is computed and a read can never unset it), it stays false under
any sequence of reads when both differences are empty, and once true it
remains true under any further reads. -/
theorem claim_C5_changed_monotonic {α : Type} [DecidableEq α]
    (current new : List α) (ops : List DiffOp) :
    (ListComparison.init current new).changed = false
    ∧ (∀ s : ListComparison α,
        ((s.addedRun).2).changed = (s.changed || !(s.addedRun).1.isEmpty))
    ∧ (∀ s : ListComparison α,
        ((s.removedRun).2).changed = (s.changed || !(s.removedRun).1.isEmpty))
    ∧ (((ListComparison.init current new).addedRun).1 = [] →
        ((ListComparison.init current new).removedRun).1 = [] →
        (applyOps (ListComparison.init current new) ops).changed = false)
    ∧ (∀ s : ListComparison α, s.changed = true →
        (applyOps s ops).changed = true) := by
  refine ⟨rfl, addedRun_snd_changed, removedRun_snd_changed, ?_, ?_⟩
  · intro ha hr
    have ha' := (addedRun_fst_nil_iff (ListComparison.init current new)).mp ha
    have hr' : pySetDiff (pySet current) (pySet new) = [] := by
      rw [removedRun_fst] at hr
      exact hr
    rw [applyOps_of_empty (ListComparison.init current new) ha' hr' ops]
    rfl
  · exact fun s h => applyOps_changed_mono ops s h

/-- C5 witness: concrete run of the monotonicity claim — the flag starts
false on `ListComparison([1], [2])`, and after a first `added` read sets it,
a further `removed` read keeps it true. -/
theorem claim_C5_changed_monotonic_witness :
    (ListComparison.init [1] ([2] : List Nat)).changed = false
    ∧ (applyOps ((ListComparison.init [1] ([2] : List Nat)).addedRun).2
        [DiffOp.removedOp]).changed = true :=
  ⟨(claim_C5_changed_monotonic [1] [2] [DiffOp.removedOp]).1,
   (claim_C5_changed_monotonic [1] ([2] : List Nat) [DiffOp.removedOp]).2.2.2.2
     ((ListComparison.init [1] [2]).addedRun).2 (by decide)⟩

/-! ### Lemmas about the reachability model -/

theorem connectAddr_fst (reach : String → IpFamily → Bool) (a : String) :
    (connectAddr reach a).1 = (reach a IpFamily.v4 || reach a IpFamily.v6) := by
  by_cases h4 : reach a IpFamily.v4 <;> by_cases h6 : reach a IpFamily.v6 <;>
    simp [connectAddr, h4, h6]

theorem connectAddr_v4_first (reach : String → IpFamily → Bool) (a : String)
    (h : reach a IpFamily.v4 = true) :
    connectAddr reach a = (true, [⟨a, IpFamily.v4⟩]) := by
  simp [connectAddr, h]

theorem connectAddr_v6_second (reach : String → IpFamily → Bool) (a : String)
    (h4 : reach a IpFamily.v4 = false) (h6 : reach a IpFamily.v6 = true) :
    connectAddr reach a = (true, [⟨a, IpFamily.v4⟩, ⟨a, IpFamily.v6⟩]) := by
  simp [connectAddr, h4, h6]

theorem connectAddr_fail (reach : String → IpFamily → Bool) (a : String)
    (h4 : reach a IpFamily.v4 = false) (h6 : reach a IpFamily.v6 = false) :
    connectAddr reach a = (false, [⟨a, IpFamily.v4⟩, ⟨a, IpFamily.v6⟩]) := by
  simp [connectAddr, h4, h6]

theorem validIpLoop_fst (reach : String → IpFamily → Bool) (l : List String) :
    (validIpLoop reach l).1 =
      l.all (fun a => reach a IpFamily.v4 || reach a IpFamily.v6) := by
  induction l with
  | nil => rfl
  | cons a rest ih =>
    by_cases h : (connectAddr reach a).1
    · have hp : (reach a IpFamily.v4 || reach a IpFamily.v6) = true := by
        rw [← connectAddr_fst reach a]; exact h
      simp [validIpLoop, h, hp, ih]
    · have hp : (reach a IpFamily.v4 || reach a IpFamily.v6) = false := by
        rw [← connectAddr_fst reach a]; simpa using h
      simp [validIpLoop, h, hp]

theorem validIpLoop_shortCircuit (reach : String → IpFamily → Bool)
    (l1 : List String) (a : String) (l2 : List String)
    (h1 : ∀ b ∈ l1, (reach b IpFamily.v4 || reach b IpFamily.v6) = true)
    (h4 : reach a IpFamily.v4 = false) (h6 : reach a IpFamily.v6 = false) :
    validIpLoop reach (l1 ++ a :: l2) =
      (false, (validIpLoop reach l1).2 ++ [⟨a, IpFamily.v4⟩, ⟨a, IpFamily.v6⟩]) := by
  induction l1 with
  | nil =>
    simp only [List.nil_append]
    have hc := connectAddr_fail reach a h4 h6
    simp [validIpLoop, hc]
  | cons b l1 ih =>
    have hb : (reach b IpFamily.v4 || reach b IpFamily.v6) = true := h1 b (by simp)
    have hcb : (connectAddr reach b).1 = true := by
      rw [connectAddr_fst]; exact hb
    have ih' := ih (fun x hx => h1 x (by simp [hx]))
    simp only [List.cons_append, validIpLoop, hcb, if_true, List.append_eq]
    rw [ih']
    simp [validIpLoop, hcb]

/-! ### Claims C2, C10 -/

/-- C2: `valid_ip` on a list of addresses returns the logical AND of
per-address reachability (each address reachable when either family
connects); for each address it probes IPv4 first and stops at the first
family that connects; and as soon as one address fails both families it
returns false without probing any later address. -/
theorem claim_C2_valid_ip_and_shortcircuit (reach : String → IpFamily → Bool)
    (l : List String) :
    (valid_ip reach (PyValue.list l)).1 =
      l.all (fun a => reach a IpFamily.v4 || reach a IpFamily.v6)
    ∧ (∀ a, reach a IpFamily.v4 = true →
        connectAddr reach a = (true, [⟨a, IpFamily.v4⟩]))
    ∧ (∀ a, reach a IpFamily.v4 = false → reach a IpFamily.v6 = true →
        connectAddr reach a = (true, [⟨a, IpFamily.v4⟩, ⟨a, IpFamily.v6⟩]))
    ∧ (∀ l1 a l2, (∀ b ∈ l1, (reach b IpFamily.v4 || reach b IpFamily.v6) = true) →
        reach a IpFamily.v4 = false → reach a IpFamily.v6 = false →
        valid_ip reach (PyValue.list (l1 ++ a :: l2)) =
          (false, (valid_ip reach (PyValue.list l1)).2 ++
            [⟨a, IpFamily.v4⟩, ⟨a, IpFamily.v6⟩])) :=
  ⟨validIpLoop_fst reach l,
   fun a h => connectAddr_v4_first reach a h,
   fun a h4 h6 => connectAddr_v6_second reach a h4 h6,
   fun l1 a l2 h1 h4 h6 => validIpLoop_shortCircuit reach l1 a l2 h1 h4 h6⟩

/-- C2 witness: with an oracle under which only `"ok"` is reachable (over
IPv4), probing `["ok", "bad", "skipped"]` returns false after probing
`"ok"` once over IPv4 and `"bad"` over both families, never probing
`"skipped"`. -/
theorem claim_C2_valid_ip_and_shortcircuit_witness :
    valid_ip (fun a _ => a == "ok") (PyValue.list ["ok", "bad", "skipped"]) =
      (false, [⟨"ok", IpFamily.v4⟩, ⟨"bad", IpFamily.v4⟩, ⟨"bad", IpFamily.v6⟩]) := by
  have h := (claim_C2_valid_ip_and_shortcircuit (fun a _ => a == "ok")
      ["ok", "bad", "skipped"]).2.2.2 ["ok"] "bad" ["skipped"]
      (by decide) (by decide) (by decide)
  exact h.trans (by decide)

/-- C10: `valid_ip` on an empty list returns true with no connect attempt
made, and `valid_ip` on an argument that is neither a string nor a list
returns false without attempting any probe. -/
theorem claim_C10_empty_list_and_other_type (reach : String → IpFamily → Bool) :
    valid_ip reach (PyValue.list []) = (true, [])
    ∧ valid_ip reach PyValue.other = (false, []) :=
  ⟨rfl, rfl⟩

/-! ### Lemmas about the resolver model -/

theorem mem_addResolved (x : String) (infos : List String) :
    ∀ acc : List String, x ∈ addResolved acc infos ↔ x ∈ acc ∨ x ∈ infos := by
  induction infos with
  | nil => intro acc; simp [addResolved]
  | cons s rest ih =>
    intro acc
    have e : addResolved acc (s :: rest) =
        addResolved (if s ∈ acc then acc else acc ++ [s]) rest := rfl
    rw [e, ih]
    by_cases h : s ∈ acc
    · simp only [if_pos h, List.mem_cons]
      constructor
      · rintro (hx | hx)
        · exact Or.inl hx
        · exact Or.inr (Or.inr hx)
      · rintro (hx | hx | hx)
        · exact Or.inl hx
        · exact Or.inl (hx ▸ h)
        · exact Or.inr hx
    · simp only [if_neg h, List.mem_append, List.mem_singleton, List.mem_cons]
      tauto

/-! ### Claims C4, C6 -/

/-- C4: when the bare (unbracketed) form of the input parses as an IPv4 or
an IPv6 literal, `resolve_ip_addresses` returns the one-element list holding
exactly that bare literal, for every DNS oracle — so no DNS lookup can
influence the result. -/
theorem claim_C4_literal_bypasses_dns (addr : String)
    (h : inet_pton4 (normalize_ip_address addr).data = true ∨
         inet_pton6 (normalize_ip_address addr).data = true) :
    ∀ dns : String → IpFamily → Option (List String),
      resolve_ip_addresses dns addr = [normalize_ip_address addr] := by
  intro dns
  rcases h with h | h
  · simp [resolve_ip_addresses, h]
  · by_cases h4 : inet_pton4 (normalize_ip_address addr).data
    · simp [resolve_ip_addresses, h4]
    · simp [resolve_ip_addresses, h4, h]

/-- C4 witness: `"127.0.0.1"` is returned as-is even under a DNS oracle that
would answer with a different address. -/
theorem claim_C4_literal_bypasses_dns_witness :
    resolve_ip_addresses (fun _ _ => some ["10.0.0.9"]) "127.0.0.1" =
      ["127.0.0.1"] :=
  (claim_C4_literal_bypasses_dns "127.0.0.1" (Or.inl (by decide))
    (fun _ _ => some ["10.0.0.9"])).trans (by decide)

/-- C6: for a non-literal input, `resolve_ip_addresses` signals total
resolution failure by the empty list, and an element is in the result
exactly when some family's lookup succeeded and produced it — so a raised
lookup for one family is swallowed and contributes no addresses while the
other family's results are still returned, and no exception escapes. -/
theorem claim_C6_resolution_failure_swallowed
    (dns : String → IpFamily → Option (List String)) (addr : String)
    (h4 : inet_pton4 (normalize_ip_address addr).data = false)
    (h6 : inet_pton6 (normalize_ip_address addr).data = false) :
    (dns addr IpFamily.v4 = none → dns addr IpFamily.v6 = none →
      resolve_ip_addresses dns addr = [])
    ∧ ∀ x, x ∈ resolve_ip_addresses dns addr ↔
        (∃ infos, dns addr IpFamily.v4 = some infos ∧ x ∈ infos)
        ∨ (∃ infos, dns addr IpFamily.v6 = some infos ∧ x ∈ infos) := by
  have e : resolve_ip_addresses dns addr =
      (match dns addr IpFamily.v6 with
       | some infos => addResolved
           (match dns addr IpFamily.v4 with
            | some infos4 => addResolved [] infos4
            | none => []) infos
       | none =>
           match dns addr IpFamily.v4 with
           | some infos4 => addResolved [] infos4
           | none => []) := by
    simp [resolve_ip_addresses, h4, h6]
  constructor
  · intro hv4 hv6
    rw [e, hv6, hv4]
  · intro x
    rw [e]
    rcases hv4 : dns addr IpFamily.v4 with _ | infos4 <;>
      rcases hv6 : dns addr IpFamily.v6 with _ | infos6 <;>
        simp [hv4, hv6, mem_addResolved]

/-- C6 witness: a hostname for which both families' lookups raise resolves
to the empty list. -/
theorem claim_C6_resolution_failure_swallowed_witness :
    resolve_ip_addresses (fun _ _ => none) "node1" = [] :=
  (claim_C6_resolution_failure_swallowed (fun _ _ => none) "node1"
    (by decide) (by decide)).1 rfl rfl

/-! ### Character classes of accepted `inet_pton` inputs -/

theorem pton4Loop_head (c : Char) (rest : List Char) (saw : Bool) (oct cur : Nat)
    (h : pton4Loop (c :: rest) saw oct cur = true) : c.isDigit = true ∨ c = '.' := by
  by_cases hdig : c.isDigit
  · exact Or.inl hdig
  · simp only [pton4Loop, if_neg hdig] at h
    by_cases hdot : c = '.' ∧ saw = true
    · exact Or.inr hdot.1
    · rw [if_neg hdot] at h
      exact absurd h (by simp)

theorem pton4Loop_tail (c : Char) (rest : List Char) (saw : Bool) (oct cur : Nat)
    (h : pton4Loop (c :: rest) saw oct cur = true) :
    ∃ saw' oct' cur', pton4Loop rest saw' oct' cur' = true := by
  simp only [pton4Loop] at h
  split_ifs at h
  all_goals exact ⟨_, _, _, h⟩

theorem pton4Loop_chars : ∀ (src : List Char) (saw : Bool) (oct cur : Nat),
    pton4Loop src saw oct cur = true → ∀ c ∈ src, c.isDigit = true ∨ c = '.' := by
  intro src
  induction src with
  | nil => intro _ _ _ _ c hc; exact absurd hc (List.not_mem_nil c)
  | cons c rest ih =>
    intro saw oct cur h d hd
    rcases List.mem_cons.mp hd with rfl | hd
    · exact pton4Loop_head d rest saw oct cur h
    · obtain ⟨saw', oct', cur', h'⟩ := pton4Loop_tail c rest saw oct cur h
      exact ih saw' oct' cur' h' d hd

theorem pton6Loop_head (c : Char) (rest curtok : List Char) (xds val bytes : Nat)
    (hasColon : Bool)
    (h : pton6Loop (c :: rest) curtok xds val bytes hasColon = true) :
    ipv6Char c := by
  simp only [pton6Loop] at h
  cases hv : hexDigitValue c with
  | some d => exact Or.inr (Or.inl (by simp [hv]))
  | none =>
    simp only [hv] at h
    by_cases hc : c = ':'
    · exact Or.inr (Or.inr (Or.inl hc))
    · rw [if_neg hc] at h
      by_cases hdot : c = '.' ∧ bytes + 4 ≤ 16 ∧ inet_pton4 curtok = true
      · exact Or.inr (Or.inr (Or.inr hdot.1))
      · rw [if_neg hdot] at h
        exact absurd h (by simp)

theorem pton6Loop_chars : ∀ (src curtok : List Char) (xds val bytes : Nat)
    (hasColon : Bool), src <:+ curtok →
    pton6Loop src curtok xds val bytes hasColon = true →
    ∀ c ∈ src, ipv6Char c := by
  intro src
  induction src with
  | nil => intro _ _ _ _ _ _ _ c hc; exact absurd hc (List.not_mem_nil c)
  | cons c rest ih =>
    intro curtok xds val bytes hasColon hsuf h d hd
    have hrest_suf : rest <:+ curtok := (List.suffix_cons c rest).trans hsuf
    rcases List.mem_cons.mp hd with rfl | hd
    · exact pton6Loop_head d rest curtok xds val bytes hasColon h
    · simp only [pton6Loop] at h
      cases hv : hexDigitValue c with
      | some dd =>
        simp only [hv] at h
        split_ifs at h with h1 h2
        exact ih curtok (xds + 1) (val * 16 + dd) bytes hasColon hrest_suf h d hd
      | none =>
        simp only [hv] at h
        by_cases hc : c = ':'
        · rw [if_pos hc] at h
          split_ifs at h with h1 h2 h3 h4
          all_goals first
            | exact ih rest 0 val bytes true (List.suffix_refl rest) h d hd
            | exact ih rest 0 0 (bytes + 2) hasColon (List.suffix_refl rest) h d hd
        · rw [if_neg hc] at h
          by_cases hdot : c = '.' ∧ bytes + 4 ≤ 16 ∧ inet_pton4 curtok = true
          · have hall := pton4Loop_chars curtok false 0 0 hdot.2.2
            have hdc : d ∈ curtok := hsuf.subset (List.mem_cons.mpr (Or.inr hd))
            rcases hall d hdc with h' | h'
            · exact Or.inl h'
            · exact Or.inr (Or.inr (Or.inr h'))
          · rw [if_neg hdot] at h
            exact absurd h (by simp)

theorem inet_pton6_chars (s : List Char) (h : inet_pton6 s = true) :
    ∀ c ∈ s, ipv6Char c := by
  cases s with
  | nil => intro c hc; exact absurd hc (List.not_mem_nil c)
  | cons c0 rest =>
    simp only [inet_pton6] at h
    by_cases hc0 : c0 = ':'
    · rw [if_pos hc0] at h
      by_cases hh : rest.head? = some ':'
      · rw [if_pos hh] at h
        intro c hc
        rcases List.mem_cons.mp hc with rfl | hc
        · exact Or.inr (Or.inr (Or.inl hc0))
        · exact pton6Loop_chars rest rest 0 0 0 false (List.suffix_refl rest) h c hc
      · rw [if_neg hh] at h
        exact absurd h (by simp)
    · rw [if_neg hc0] at h
      exact pton6Loop_chars (c0 :: rest) (c0 :: rest) 0 0 0 false
        (List.suffix_refl _) h

theorem ipv6Char_ne_newline {c : Char} (h : ipv6Char c) : c ≠ '\n' := by
  rintro rfl
  revert h
  unfold ipv6Char
  decide

theorem ipv6Char_ne_lbracket {c : Char} (h : ipv6Char c) : c ≠ '[' := by
  rintro rfl
  revert h
  unfold ipv6Char
  decide

theorem inet_pton6_no_newline (s : String) (h : inet_pton6 s.data = true) :
    '\n' ∉ s.data :=
  fun hm => ipv6Char_ne_newline (inet_pton6_chars s.data h '\n' hm) rfl

theorem inet_pton6_no_lbracket (s : String) (h : inet_pton6 s.data = true) :
    '[' ∉ s.data :=
  fun hm => ipv6Char_ne_lbracket (inet_pton6_chars s.data h '[' hm) rfl

theorem inet_pton4_no_lbracket (s : String) (h : inet_pton4 s.data = true) :
    '[' ∉ s.data := by
  intro hm
  rcases pton4Loop_chars s.data false 0 0 h '[' hm with h' | h'
  · exact absurd h' (by decide)
  · exact absurd h' (by decide)

/-! ### Lemmas about the bracket regex -/

theorem pyBracketGroup_cons_lbracket (rest : List Char) :
    pyBracketGroup ('[' :: rest) =
      (match (dropTrailingNl rest).reverse with
       | [] => none
       | c2 :: revT =>
         if c2 = ']' then if '\n' ∈ revT then none else some revT.reverse
         else none) := by
  simp [pyBracketGroup]

theorem dropTrailingNl_concat_rbracket (t : List Char) :
    dropTrailingNl (t ++ [']']) = t ++ [']'] := by
  unfold dropTrailingNl
  rw [List.getLast?_concat]
  simp

theorem dropTrailingNl_concat_nl (t : List Char) :
    dropTrailingNl (t ++ [']', '\n']) = t ++ [']'] := by
  have e : t ++ [']', '\n'] = (t ++ [']']) ++ ['\n'] := by simp
  unfold dropTrailingNl
  rw [e, List.getLast?_concat]
  simp [List.dropLast_concat]

theorem pyBracketGroup_wrap (t : List Char) (h : '\n' ∉ t) :
    pyBracketGroup ('[' :: (t ++ [']'])) = some t := by
  rw [pyBracketGroup_cons_lbracket, dropTrailingNl_concat_rbracket]
  rw [show (t ++ [']']).reverse = ']' :: t.reverse by simp]
  simp [List.mem_reverse, h]

theorem pyBracketGroup_wrap_nl (t : List Char) (h : '\n' ∉ t) :
    pyBracketGroup ('[' :: (t ++ [']', '\n'])) = some t := by
  rw [pyBracketGroup_cons_lbracket, dropTrailingNl_concat_nl]
  rw [show (t ++ [']']).reverse = ']' :: t.reverse by simp]
  simp [List.mem_reverse, h]

theorem pyBracketGroup_decomp (cs t : List Char) (h : pyBracketGroup cs = some t) :
    '\n' ∉ t ∧ (cs = '[' :: (t ++ [']']) ∨ cs = '[' :: (t ++ [']', '\n'])) := by
  cases cs with
  | nil => exact absurd h (by simp [pyBracketGroup])
  | cons c rest =>
    simp only [pyBracketGroup] at h
    by_cases hc : c = '['
    · rw [if_pos hc] at h
      cases hrev : (dropTrailingNl rest).reverse with
      | nil => rw [hrev] at h; exact absurd h (by simp)
      | cons c2 revT =>
        simp only [hrev] at h
        by_cases hc2 : c2 = ']'
        · rw [if_pos hc2] at h
          by_cases hnl : '\n' ∈ revT
          · rw [if_pos hnl] at h; exact absurd h (by simp)
          · rw [if_neg hnl] at h
            have ht : t = revT.reverse := (Option.some.inj h).symm
            have hbody : dropTrailingNl rest = t ++ [']'] := by
              have e : dropTrailingNl rest = ((dropTrailingNl rest).reverse).reverse := by
                simp
              rw [e, hrev, hc2, ht]
              simp
            have hnt : '\n' ∉ t := by
              rw [ht]
              simpa [List.mem_reverse] using hnl
            refine ⟨hnt, ?_⟩
            unfold dropTrailingNl at hbody
            by_cases hl : rest.getLast? = some '\n'
            · rw [if_pos hl] at hbody
              have hrest : rest.dropLast ++ ['\n'] = rest :=
                List.dropLast_append_getLast? '\n' hl
              right
              rw [hc]
              have : rest = (t ++ [']']) ++ ['\n'] := by rw [← hrest, hbody]
              rw [this]
              simp
            · rw [if_neg hl] at hbody
              left
              rw [hc, hbody]
        · rw [if_neg hc2] at h; exact absurd h (by simp)
    · rw [if_neg hc] at h; exact absurd h (by simp)

theorem pyBracketGroup_none_of_no_lbracket (cs : List Char) (h : '[' ∉ cs) :
    pyBracketGroup cs = none := by
  cases cs with
  | nil => rfl
  | cons c rest =>
    have hc : c ≠ '[' := fun e => h (by simp [e])
    simp [pyBracketGroup, hc]

theorem normalize_ip_address_of_none (s : String)
    (h : pyBracketGroup s.data = none) : normalize_ip_address s = s := by
  simp [normalize_ip_address, h]

theorem normalize_ip_address_wrap (s : String) (h : '\n' ∉ s.data) :
    normalize_ip_address ("[" ++ s ++ "]") = s := by
  have hdata : ("[" ++ s ++ "]").data = '[' :: (s.data ++ [']']) := by
    simp [String.data_append]
  simp [normalize_ip_address, hdata, pyBracketGroup_wrap s.data h]

/-! ### Claims C7, C8, C9 -/

/-- C7 counterexample: `normalize_ip_literal` is not idempotent on every
input string — on `"[[]]"` one application yields `"[]"` (the stripped bare
form is not a valid IPv6 address, so it is not re-wrapped), and a second
application strips again to `""`. -/
theorem claim_C7_counterexample :
    normalize_ip_literal (normalize_ip_literal "[[]]") ≠
      normalize_ip_literal "[[]]" := by decide

/-- C7 amended: `normalize_ip_literal` is idempotent on every input whose
bare form is not itself in bracketed form (that is, the bracket regex does
not match the bare form again) — in particular on every IPv4/IPv6 address
string and every hostname; unrestricted idempotence fails on nested-bracket
inputs such as `"[[]]"`. -/
theorem claim_C7_amended_idempotent (x : String)
    (h : pyBracketGroup (normalize_ip_address x).data = none) :
    normalize_ip_literal (normalize_ip_literal x) = normalize_ip_literal x := by
  have e : normalize_ip_literal (normalize_ip_literal x) =
      (if inet_pton6 (normalize_ip_address (normalize_ip_literal x)).data
       then "[" ++ normalize_ip_address (normalize_ip_literal x) ++ "]"
       else normalize_ip_address (normalize_ip_literal x)) := rfl
  by_cases h6 : inet_pton6 (normalize_ip_address x).data = true
  · have hlit : normalize_ip_literal x = "[" ++ normalize_ip_address x ++ "]" := by
      simp [normalize_ip_literal, h6]
    have hb : normalize_ip_address (normalize_ip_literal x) =
        normalize_ip_address x := by
      rw [hlit]
      exact normalize_ip_address_wrap _ (inet_pton6_no_newline _ h6)
    rw [e, hb, if_pos h6, ← hlit]
  · have hlit : normalize_ip_literal x = normalize_ip_address x := by
      simp [normalize_ip_literal, h6]
    have hb : normalize_ip_address (normalize_ip_literal x) =
        normalize_ip_address x := by
      rw [hlit]
      exact normalize_ip_address_of_none _ h
    rw [e, hb, if_neg h6, ← hlit]

/-- C7 amended witness: idempotence holds at the IPv6 literal `"::1"`. -/
theorem claim_C7_amended_idempotent_witness :
    normalize_ip_literal (normalize_ip_literal "::1") = normalize_ip_literal "::1" :=
  claim_C7_amended_idempotent "::1" (by decide)

/-- C8: for every string whose bare form parses as an IPv4 or IPv6 address,
stripping the bracket form of `normalize_ip_literal`'s output gives back the
bare form of the input: `to_bare (to_literal x) = to_bare x`. -/
theorem claim_C8_roundtrip (x : String)
    (h : inet_pton4 (normalize_ip_address x).data = true ∨
         inet_pton6 (normalize_ip_address x).data = true) :
    normalize_ip_address (normalize_ip_literal x) = normalize_ip_address x := by
  by_cases h6 : inet_pton6 (normalize_ip_address x).data = true
  · have hlit : normalize_ip_literal x = "[" ++ normalize_ip_address x ++ "]" := by
      simp [normalize_ip_literal, h6]
    rw [hlit]
    exact normalize_ip_address_wrap _ (inet_pton6_no_newline _ h6)
  · have h4 : inet_pton4 (normalize_ip_address x).data = true := by
      rcases h with h | h
      · exact h
      · exact absurd h h6
    have hlit : normalize_ip_literal x = normalize_ip_address x := by
      simp [normalize_ip_literal, h6]
    rw [hlit]
    exact normalize_ip_address_of_none _
      (pyBracketGroup_none_of_no_lbracket _ (inet_pton4_no_lbracket _ h4))

/-- C8 witness: the round trip holds at the bracketed IPv6 literal
`"[::1]"`. -/
theorem claim_C8_roundtrip_witness :
    normalize_ip_address (normalize_ip_literal "[::1]") =
      normalize_ip_address "[::1]" :=
  claim_C8_roundtrip "[::1]" (Or.inr (by decide))

/-- C9 counterexample: the input `"[abc]\n"` does not match the bracketed
form (its last character is a newline, not `]`), yet `normalize_ip_address`
does not return it unchanged — the anchor `$` of the regex tolerates one
trailing newline, so the call strips to `"abc"`. -/
theorem claim_C9_counterexample :
    specBracketedForm "[abc]\n" = false ∧
      normalize_ip_address "[abc]\n" ≠ "[abc]\n" :=
  ⟨by decide, by decide⟩

/-- C9 amended: `normalize_ip_address` never raises; when the input is `[`,
then an interior containing no newline, then `]`, optionally followed by
exactly one trailing newline, it returns exactly that interior (dropping
the trailing newline); every other input — including bracketed strings
whose interior contains a newline — is returned unchanged. -/
theorem claim_C9_amended_bracket_strip (s : String) :
    (∀ t : List Char, '\n' ∉ t →
      (s.data = '[' :: (t ++ [']']) ∨ s.data = '[' :: (t ++ [']', '\n'])) →
      normalize_ip_address s = String.mk t)
    ∧ ((∀ t : List Char, '\n' ∉ t →
        s.data ≠ '[' :: (t ++ [']']) ∧ s.data ≠ '[' :: (t ++ [']', '\n'])) →
      normalize_ip_address s = s) := by
  constructor
  · intro t hnl hdec
    have hg : pyBracketGroup s.data = some t := by
      rcases hdec with hdec | hdec
      · rw [hdec]
        exact pyBracketGroup_wrap t hnl
      · rw [hdec]
        exact pyBracketGroup_wrap_nl t hnl
    simp [normalize_ip_address, hg]
  · intro hno
    rcases hg : pyBracketGroup s.data with _ | t
    · exact normalize_ip_address_of_none s hg
    · obtain ⟨hnl, hdec⟩ := pyBracketGroup_decomp s.data t hg
      rcases hdec with hdec | hdec
      · exact absurd hdec (hno t hnl).1
      · exact absurd hdec (hno t hnl).2

/-- C9 amended witness: `"[::1]"` decomposes with interior `"::1"` and is
stripped to exactly that interior. -/
theorem claim_C9_amended_bracket_strip_witness :
    normalize_ip_address "[::1]" = "::1" :=
  ((claim_C9_amended_bracket_strip "[::1]").1 "::1".data (by decide)
    (Or.inl (by decide))).trans (by decide)
